import Mathlib

/-!
# Verification of the pocketpublish staging-and-packaging pipeline

Shallow embedding of the release-packaging pipeline of the repository
(`src/pocket.py`, `src/helpers/package.py`, `src/helpers/json.py`) and proofs
about it.  Machine bytes are modelled as `Nat` below 256; files are byte lists;
Python exceptions are modelled by an explicit result type.
-/

namespace PocketPublish

/-! ## BitReverser (`reverse_bitstream` in src/helpers/package.py)

The source computes, for every byte `b` of the input file,
`((b & 0x01) << 7) | ((b & 0x02) << 5) | ((b & 0x04) << 3) | ((b & 0x08) << 1) |
 ((b & 0x10) >> 1) | ((b & 0x20) >> 3) | ((b & 0x40) >> 5) | ((b & 0x80) >> 7)`.
-/

/-- One byte of the reversal loop body of `reverse_bitstream`
(src/helpers/package.py, lines 255-259), transcribed term for term. -/
def reverseByte (b : Nat) : Nat :=
  ((b &&& 0x01) <<< 7) ||| ((b &&& 0x02) <<< 5) |||
  ((b &&& 0x04) <<< 3) ||| ((b &&& 0x08) <<< 1) |||
  ((b &&& 0x10) >>> 1) ||| ((b &&& 0x20) >>> 3) |||
  ((b &&& 0x40) >>> 5) ||| ((b &&& 0x80) >>> 7)

/-- The pure byte transform of `reverse_bitstream`: the loop
`for i in range(len(byte_array)): byte_array[i] = ...` applied to the whole
buffer.  File I/O around it is modelled separately (`reverse_bitstreamRun`). -/
def reverse_bitstream_bytes (bs : List Nat) : List Nat :=
  bs.map reverseByte

/-! ## Python exception and value model -/

/-- The Python exceptions the embedded code can raise.  In Python 3, `IOError`
is an alias of `OSError`, so every filesystem error is an `ioError` here. -/
inductive PyExn where
  | ioError
  | typeError
  | keyError (k : String)
  | valueError
  deriving DecidableEq, Repr

/-- Result of running a piece of Python code: a value, or an uncaught
exception propagating to the caller. -/
inductive PyResult (α : Type) where
  | ok (a : α)
  | exn (e : PyExn)
  deriving DecidableEq, Repr

/-- Parsed JSON values, as produced by `json.load`. -/
inductive JSON where
  | null
  | bool (b : Bool)
  | num (n : Int)
  | str (s : String)
  | arr (xs : List JSON)
  | obj (fields : List (String × JSON))

mutual

/-- Structural equality of JSON values (Python `==` on parsed JSON data). -/
def JSON.beq : JSON → JSON → Bool
  | .null, .null => true
  | .bool a, .bool b => a == b
  | .num a, .num b => a == b
  | .str a, .str b => a == b
  | .arr xs, .arr ys => JSON.beqList xs ys
  | .obj fs, .obj gs => JSON.beqFields fs gs
  | _, _ => false

def JSON.beqList : List JSON → List JSON → Bool
  | [], [] => true
  | x :: xs, y :: ys => JSON.beq x y && JSON.beqList xs ys
  | _, _ => false

def JSON.beqFields : List (String × JSON) → List (String × JSON) → Bool
  | [], [] => true
  | (k, v) :: fs, (l, w) :: gs => k == l && JSON.beq v w && JSON.beqFields fs gs
  | _, _ => false

end

/-- Dictionary lookup on the field list of a JSON object (keys are unique in
parsed JSON, first match wins). -/
def lookupField : List (String × JSON) → String → Option JSON
  | [], _ => none
  | (k, v) :: rest, key => if k = key then some v else lookupField rest key

/-- Dictionary assignment `d[key] = v`: replace the binding if present,
append it otherwise. -/
def setField : List (String × JSON) → String → JSON → List (String × JSON)
  | [], key, v => [(key, v)]
  | (k, w) :: rest, key, v =>
    if k = key then (key, v) :: rest else (k, w) :: setField rest key v

/-- `sub in s` for Python strings: substring containment. -/
def strContains (sub s : List Char) : Bool :=
  s.tails.any (fun t => sub.isPrefixOf t)

/-- The Python expression `key in j`: key membership for dicts, element
membership for lists, substring test for strings; `TypeError` for `None`,
booleans and numbers (argument not iterable). -/
def pyIn (key : String) (j : JSON) : PyResult Bool :=
  match j with
  | .obj fs => .ok (fs.any (fun p => p.1 = key))
  | .arr xs => .ok (xs.any (fun x => JSON.beq x (JSON.str key)))
  | .str s => .ok (strContains key.toList s.toList)
  | _ => .exn .typeError

/-- The Python expression `j[key]` for a string key: dict lookup
(`KeyError` when absent), `TypeError` on any non-dict value. -/
def pyGetItem (j : JSON) (key : String) : PyResult JSON :=
  match j with
  | .obj fs =>
    match lookupField fs key with
    | some v => .ok v
    | none => .exn (.keyError key)
  | _ => .exn .typeError

/-- The Python statement `j[key] = v` for a string key: dict update,
`TypeError` on any non-dict value. -/
def pySetItem (j : JSON) (key : String) (v : JSON) : PyResult JSON :=
  match j with
  | .obj fs => .ok (.obj (setField fs key v))
  | _ => .exn .typeError

/-! ## JSON helpers (src/helpers/json.py) -/

/-- Outcome of opening and parsing a JSON file. -/
inductive ReadOutcome where
  | fileNotFound
  | jsonDecodeError
  | success (j : JSON)

/-- Embeds `read_json_file` (src/helpers/json.py): returns the parsed data on
success, and `None` on `FileNotFoundError` or `json.JSONDecodeError` (both are
caught, a message is printed, and `None` is returned). -/
def read_json_file : ReadOutcome → Option JSON
  | .fileNotFound => none
  | .jsonDecodeError => none
  | .success j => some j

/-- Embeds `update_apf_core_json` (src/helpers/json.py).  `readResult` is what
`read_json_file` returned for the staged `core.json`.  The result is
`.ok (some d)` when the function saved updated data `d` back to the file,
`.ok none` when it printed "Error: JSON structure is not as expected." and
returned without saving, and `.exn e` when an uncaught exception escapes —
in particular `'core' in None` raises `TypeError` when the read failed. -/
def update_apf_core_json (readResult : Option JSON) (version curDate : String) :
    PyResult (Option JSON) :=
  match readResult with
  | none => .exn .typeError
  | some data =>
    match pyIn "core" data with
    | .exn e => .exn e
    | .ok false => .ok none
    | .ok true =>
      match pyGetItem data "core" with
      | .exn e => .exn e
      | .ok core =>
        match pyIn "metadata" core with
        | .exn e => .exn e
        | .ok false => .ok none
        | .ok true =>
          match pyGetItem core "metadata" with
          | .exn e => .exn e
          | .ok meta =>
            match pySetItem meta "version" (.str version) with
            | .exn e => .exn e
            | .ok meta1 =>
              match pySetItem meta1 "date_release" (.str curDate) with
              | .exn e => .exn e
              | .ok meta2 =>
                match pySetItem core "metadata" meta2 with
                | .exn e => .exn e
                | .ok core1 =>
                  match pySetItem data "core" core1 with
                  | .exn e => .exn e
                  | .ok data1 => .ok (some data1)

/-! ## Filesystem model

A directory tree is flattened to an association list from relative paths
(component lists, no separators inside a component) to file contents.  Only
regular files are recorded; directories exist implicitly as path prefixes. -/

/-- A relative path, as a list of name components. -/
abbrev Path := List String

/-- Contents of a regular file: raw bytes, or a parsed JSON document for
files the pipeline reads with `json.load`.  A `bytes` file read as JSON is a
decode error. -/
inductive FileData where
  | bytes (bs : List Nat)
  | json (j : JSON)

/-- A directory tree: relative file paths with their contents. -/
abbrev FS := List (Path × FileData)

/-- Look up the file at path `p`. -/
def lookupFS (fs : FS) (p : Path) : Option FileData :=
  match fs with
  | [] => none
  | (q, d) :: rest => if q = p then some d else lookupFS rest p

/-- Write (create or overwrite) the file at path `p`, as `open(p, "wb")`
followed by `write` does. -/
def writeFS (fs : FS) (p : Path) (d : FileData) : FS :=
  match fs with
  | [] => [(p, d)]
  | (q, e) :: rest => if q = p then (p, d) :: rest else (q, e) :: writeFS rest p d

/-- Embeds `copy_packaging_folder` (src/helpers/package.py) at the level of
resulting file contents: every file of the source tree is copied to the same
relative path in the destination (`shutil.copytree(..., dirs_exist_ok=True)` /
`shutil.copy2` overwrite existing files); destination files at paths the
source does not contain are left untouched (union-merge). -/
def copy_packaging_folder (dest source : FS) : FS :=
  dest.filter (fun pd => !(source.any (fun qd => qd.1 == pd.1))) ++ source

/-! ## Glob matching and cleanup (`clean_up_files` in src/helpers/package.py)

`clean_up_files` deletes `glob.glob(os.path.join(stage, "**", pattern),
recursive=True)` for each pattern.  Python's `glob` matches `*` and `?`
wildcards but never matches a name whose first character is `.` unless the
pattern itself starts with a literal `.`; the recursive `**` component
likewise never descends into hidden directories. -/

/-- Wildcard matching of a pattern against a name (`fnmatch`-style `*` and
`?`; the character-class syntax is not used by this repository's patterns).
`*` consumes an arbitrary prefix of the remaining name, expressed through
`List.tails` to keep the recursion structural in the pattern. -/
def wildMatch : List Char → List Char → Bool
  | [], cs => cs.isEmpty
  | '*' :: ps, cs => cs.tails.any (fun t => wildMatch ps t)
  | '?' :: ps, _ :: cs => wildMatch ps cs
  | '?' :: _, [] => false
  | p :: ps, c :: cs => p = c && wildMatch ps cs
  | _ :: _, [] => false

/-- A name is hidden exactly when it starts with a dot. -/
def isHiddenName (s : String) : Bool :=
  match s.toList with
  | '.' :: _ => true
  | _ => false

/-- Whether a pattern begins with a literal dot. -/
def patStartsDot : List Char → Bool
  | '.' :: _ => true
  | _ => false

/-- One path component matched by `glob`: hidden names are excluded unless
the pattern itself starts with a dot. -/
def globCompMatch (pat : List Char) (name : String) : Bool :=
  if isHiddenName name && !patStartsDot pat then false
  else wildMatch pat name.toList

/-- Whether the relative path `p` (inside the stage folder) is returned by
`glob.glob(os.path.join(stage, "**", pat), recursive=True)`: every ancestor
directory component is matched by `**` (hence not hidden) and the final
component is matched by `pat`. -/
def globStageMatch (pat : List Char) : Path → Bool
  | [] => false
  | [base] => globCompMatch pat base
  | d :: rest => !isHiddenName d && globStageMatch pat rest

/-- The unwanted-file patterns hard-coded in `clean_up_files`. -/
def file_patterns : List (List Char) :=
  ["*.png", "*.rom", "*.gitkeep"].map String.toList

/-- Whether `clean_up_files` deletes the file at relative path `p`. -/
def matchesCleanup (p : Path) : Bool :=
  file_patterns.any (fun pat => globStageMatch pat p)

/-- Embeds `clean_up_files` (src/helpers/package.py): `os.remove` every file
some pattern's recursive glob finds under the stage folder; everything else
is untouched. -/
def clean_up_files (fs : FS) : FS :=
  fs.filter (fun pd => !matchesCleanup pd.1)

/-! ## Fault-injected runs of the I/O steps

Each `...Run` definition embeds a source function together with its
try/except structure; the `Body` part is the protected block, with booleans
saying which primitive filesystem call raises an `IOError`. -/

/-- Which `os.makedirs` call inside `create_folders` raises.  `shutil.rmtree`
is invoked with `ignore_errors=True` and can never raise. -/
structure FolderFaults where
  makedirsStageFails : Bool
  makedirsReleaseFails : Bool

/-- The `try` block of `create_folders` (src/helpers/package.py):
rmtree (errors ignored), makedirs stage, rmtree, makedirs release. -/
def create_foldersBody (f : FolderFaults) : PyResult Unit :=
  if f.makedirsStageFails then .exn .ioError
  else if f.makedirsReleaseFails then .exn .ioError
  else .ok ()

/-- Embeds `create_folders` (src/helpers/package.py): the body runs under
`except IOError as e: print(...)`, so an `IOError` is printed and swallowed
and the function returns normally. -/
def create_foldersRun (f : FolderFaults) : PyResult Unit :=
  match create_foldersBody f with
  | .ok u => .ok u
  | .exn .ioError => .ok ()
  | .exn e => .exn e

/-- The `try` block of `reverse_bitstream` (src/helpers/package.py): read the
source `.rbf` (`rbf = none` models an unreadable source file, an `IOError`),
reverse the bits of every byte, write the result to
`<stage>/Cores/<author>.<name>/bitstream.rbf_r` (`writeFails` models an
`IOError` on the write). -/
def reverse_bitstreamBody (stage : FS) (author name : String)
    (rbf : Option (List Nat)) (writeFails : Bool) : PyResult FS :=
  match rbf with
  | none => .exn .ioError
  | some bs =>
    if writeFails then .exn .ioError
    else .ok (writeFS stage ["Cores", author ++ "." ++ name, "bitstream.rbf_r"]
        (.bytes (reverse_bitstream_bytes bs)))

/-- Embeds `reverse_bitstream` (src/helpers/package.py): the body runs under
`except IOError as e: print(...)`, so on an I/O error the function prints,
leaves the stage folder unchanged and returns normally. -/
def reverse_bitstreamRun (stage : FS) (author name : String)
    (rbf : Option (List Nat)) (writeFails : Bool) : PyResult FS :=
  match reverse_bitstreamBody stage author name rbf writeFails with
  | .ok s => .ok s
  | .exn .ioError => .ok stage
  | .exn e => .exn e

/-! ## ArchiveBuilder (`create_zip_file`, `create_tar_gz` in src/helpers/package.py)

`os.walk(source_dir)` is modelled on an explicit directory tree; for every
regular file the loop adds one archive member whose name is
`os.path.relpath(file_path, start=source_dir)`, i.e. the file's relative
component path joined with `/`. -/

/-- One entry of a directory listing: a regular file with its bytes, or a
subdirectory with its own listing. -/
inductive Entry where
  | file (name : String) (content : List Nat)
  | dir (name : String) (children : List Entry)

/-- The files yielded for one directory of the walk (the `for file in files`
inner loop at relative directory `pre`). -/
def levelFiles (pre : Path) : List Entry → List (Path × List Nat)
  | [] => []
  | .file n c :: rest => (pre ++ [n], c) :: levelFiles pre rest
  | .dir _ _ :: rest => levelFiles pre rest

mutual

/-- The recursion of `os.walk` into subdirectories, in listing order: each
subdirectory contributes its own files and then its recursive walk. -/
def subWalk (pre : Path) : List Entry → List (Path × List Nat)
  | [] => []
  | e :: rest => dirWalk pre e ++ subWalk pre rest

/-- The walk below one directory entry; regular files contribute nothing
here (they are yielded by their parent's `files` list). -/
def dirWalk (pre : Path) : Entry → List (Path × List Nat)
  | .file _ _ => []
  | .dir n ch => levelFiles (pre ++ [n]) ch ++ subWalk (pre ++ [n]) ch

end

/-- All regular files produced by `os.walk` of a tree, with their relative
component paths, in traversal order: top directory first, then subtrees. -/
def walkFiles (pre : Path) (es : List Entry) : List (Path × List Nat) :=
  levelFiles pre es ++ subWalk pre es

/-- `os.path.relpath(file_path, start=source_dir)` rendered as characters:
the relative components joined with `/`. -/
def joinComps : List String → List Char
  | [] => []
  | [s] => s.toList
  | s :: rest => s.toList ++ '/' :: joinComps rest

/-- The archive member name of a file at relative path `p`. -/
def zipEntryName (p : Path) : String :=
  String.mk (joinComps p)

/-- Embeds `create_zip_file` (src/helpers/package.py): the members written by
`zipf.write(file_path, arcname)` over the walk of the source directory,
member name paired with file bytes. -/
def create_zip_file (t : List Entry) : List (String × List Nat) :=
  (walkFiles [] t).map (fun pc => (zipEntryName pc.1, pc.2))

/-- Embeds `create_tar_gz` (src/helpers/package.py): the same walk and the
same `arcname = os.path.relpath(file_path, start=source_dir)` naming, written
with `tar.add` instead of `zipf.write`. -/
def create_tar_gz (t : List Entry) : List (String × List Nat) :=
  (walkFiles [] t).map (fun pc => (zipEntryName pc.1, pc.2))

/-- The `try` block of `create_zip_file`: build the archive; `writeFails`
models an I/O error while writing `output_filename`. -/
def create_zip_fileBody (t : List Entry) (writeFails : Bool) :
    PyResult (List (String × List Nat)) :=
  if writeFails then .exn .ioError else .ok (create_zip_file t)

/-- Embeds `create_zip_file` together with its `except Exception as e:
print(...)` handler: every exception, I/O errors included, is printed and
swallowed; the function returns normally, with no archive produced. -/
def create_zip_fileRun (t : List Entry) (writeFails : Bool) :
    PyResult (Option (List (String × List Nat))) :=
  match create_zip_fileBody t writeFails with
  | .ok a => .ok (some a)
  | .exn _ => .ok none

/-- Splitting a member name back into components at `/`, as an archive
extractor does. -/
def splitSlash : List Char → List (List Char)
  | [] => [[]]
  | c :: rest =>
    if c = '/' then [] :: splitSlash rest
    else
      match splitSlash rest with
      | [] => [[c]]
      | h :: t => (c :: h) :: t

/-- The relative path an extractor recreates for a member name. -/
def extractName (s : String) : Path :=
  (splitSlash s.toList).map (fun l => String.mk l)

/-- Extracting an archive: every member becomes a file at the relative path
encoded by its name, with the member's bytes. -/
def extractArchive (ar : List (String × List Nat)) : List (Path × List Nat) :=
  ar.map (fun nc => (extractName nc.1, nc.2))

/-- The specification-side description of the regular files under a
directory tree: `FileAt es p c` holds when following the directory components
of `p` from the listing `es` reaches a regular file with bytes `c`. -/
inductive FileAt : List Entry → Path → List Nat → Prop where
  | here {es : List Entry} {n : String} {c : List Nat} :
      Entry.file n c ∈ es → FileAt es [n] c
  | there {es : List Entry} {n : String} {ch : List Entry} {p : Path}
      {c : List Nat} :
      Entry.dir n ch ∈ es → FileAt ch p c → FileAt es (n :: p) c

/-! ## FilenameTemplater (Python `str.format` with keyword arguments)

`create_release_package` and `create_metadata_package` render their filename
templates with `template.format(author=..., core=..., ...)` and then apply
`.lower()`.  `str.format` is modelled for the constructs these templates use:
literal text, `{name}` placeholders, and the `{{`/`}}` escapes.  A placeholder
whose name is not among the keyword arguments raises `KeyError(name)`; a
stray unmatched brace raises `ValueError`. -/

/-- Keyword-argument lookup for `str.format`. -/
def lookupVar : List (String × String) → String → Option String
  | [], _ => none
  | (k, v) :: rest, key => if k = key then some v else lookupVar rest key

mutual

/-- `template.format(**vars)` over the template's characters. -/
def pyFormat (vars : List (String × String)) : List Char → PyResult (List Char)
  | [] => .ok []
  | '{' :: '{' :: rest =>
    match pyFormat vars rest with
    | .ok cs => .ok ('{' :: cs)
    | .exn e => .exn e
  | '{' :: rest => pyPlaceholder vars [] rest
  | '}' :: '}' :: rest =>
    match pyFormat vars rest with
    | .ok cs => .ok ('}' :: cs)
    | .exn e => .exn e
  | '}' :: _ => .exn .valueError
  | c :: rest =>
    match pyFormat vars rest with
    | .ok cs => .ok (c :: cs)
    | .exn e => .exn e

/-- Scanning a placeholder name up to the closing `}`; `acc` holds the name
characters read so far.  Reaching the end of the template without a closing
brace raises `ValueError`; an unknown name raises `KeyError`. -/
def pyPlaceholder (vars : List (String × String)) (acc : List Char) :
    List Char → PyResult (List Char)
  | [] => .exn .valueError
  | '}' :: rest =>
    match lookupVar vars (String.mk acc) with
    | none => .exn (.keyError (String.mk acc))
    | some v =>
      match pyFormat vars rest with
      | .ok cs => .ok (v.toList ++ cs)
      | .exn e => .exn e
  | c :: rest => pyPlaceholder vars (acc ++ [c]) rest

end

/-- Python `str.lower()` on the rendered name (ASCII in this repository). -/
def pyLower (cs : List Char) : List Char :=
  cs.map Char.toLower

/-- Character of one decimal digit. -/
def digitChar (n : Nat) : Char :=
  Char.ofNat (48 + n)

/-- `strftime("%Y%m%d")`: the zero-padded four-digit year followed by
two-digit month and day. -/
def strftimeYYYYMMDD (y m d : Nat) : String :=
  String.mk
    ([digitChar (y / 1000 % 10), digitChar (y / 100 % 10),
      digitChar (y / 10 % 10), digitChar (y % 10),
      digitChar (m / 10 % 10), digitChar (m % 10),
      digitChar (d / 10 % 10), digitChar (d % 10)])

/-- The keyword arguments passed to `.format` by `create_release_package`
(src/helpers/package.py): author, core, version, date and target. -/
def releaseVars (author name version date8 target : String) :
    List (String × String) :=
  [("author", author), ("core", name), ("version", version),
   ("date", date8), ("target", target)]

/-- The keyword arguments passed to `.format` by `create_metadata_package`
(src/helpers/package.py): author, core, version and date. -/
def metadataVars (author name version date8 : String) :
    List (String × String) :=
  [("author", author), ("core", name), ("version", version),
   ("date", date8)]

/-- Embeds the filename rendering of `create_release_package`
(src/helpers/package.py).  `tmpl` is
`config['release']['target'][target]['release_file']` when that key is
present; `none` models the `else` branch, which prints and returns `None`.
`version` is the last `/`-component of the `GITHUB_REF` environment value and
`date8` is `date.today().strftime("%Y%m%d")`.  On success the result is the
returned `f"{release_file}.zip"` where `release_file` is the template
formatted and lower-cased. -/
def create_release_package (tmpl : Option String)
    (author name version date8 target : String) : PyResult (Option String) :=
  match tmpl with
  | none => .ok none
  | some t =>
    match pyFormat (releaseVars author name version date8 target) t.toList with
    | .exn e => .exn e
    | .ok cs => .ok (some (String.mk (pyLower cs) ++ ".zip"))

/-- Embeds the filename rendering of `create_metadata_package`
(src/helpers/package.py): as `create_release_package`, but formatting
`metadata_file` with only author, core, version and date. -/
def create_metadata_package (tmpl : Option String)
    (author name version date8 : String) : PyResult (Option String) :=
  match tmpl with
  | none => .ok none
  | some t =>
    match pyFormat (metadataVars author name version date8) t.toList with
    | .exn e => .exn e
    | .ok cs => .ok (some (String.mk (pyLower cs) ++ ".zip"))

/-! ## PackagingPipeline (`main` in src/pocket.py)

The effect of the run on the stage folder, from `create_folders` up to the
moment `create_release_package` starts reading it. -/

/-- The run inputs the stage-folder steps depend on: manifest fields, the
target package source tree, the compiled bitstream, and the environment
version/date values. -/
structure RunConfig where
  author : String
  name : String
  pkgSource : FS
  rbf : Option (List Nat)
  version : String
  dateDash : String

/-- The staged metadata file `Cores/<author>.<name>/core.json`. -/
def coreJsonPath (cfg : RunConfig) : Path :=
  ["Cores", cfg.author ++ "." ++ cfg.name, "core.json"]

/-- The reversed-bitstream output `Cores/<author>.<name>/bitstream.rbf_r`. -/
def bitstreamPath (cfg : RunConfig) : Path :=
  ["Cores", cfg.author ++ "." ++ cfg.name, "bitstream.rbf_r"]

/-- What `read_json_file` yields for a staged file: the parsed document for a
JSON file, `None` for a missing file (`FileNotFoundError`) or for raw binary
content (`json.JSONDecodeError`). -/
def readStageJson (stage : FS) (p : Path) : Option JSON :=
  match lookupFS stage p with
  | none => none
  | some (.bytes _) => none
  | some (.json j) => some j

/-- The `update_apf_core_json` step acting on the stage folder: on a saved
update the staged `core.json` is rewritten; on the structure-error early
return the stage is unchanged; an uncaught exception propagates. -/
def update_apf_step (stage : FS) (cfg : RunConfig) : PyResult FS :=
  match update_apf_core_json (readStageJson stage (coreJsonPath cfg))
      cfg.version cfg.dateDash with
  | .exn e => .exn e
  | .ok none => .ok stage
  | .ok (some d) => .ok (writeFS stage (coreJsonPath cfg) (.json d))

/-- Embeds the stage-folder effect of `main` (src/pocket.py) up to the start
of archive creation: `create_folders` (stage emptied), `copy_packaging_folder`
(target package source merged in), `clean_up_files`, `update_apf_core_json`,
`reverse_bitstream` (run without injected write faults; `cfg.rbf = none`
models an unreadable source bitstream, whose `IOError` the function
swallows). -/
def pipelineStageAtPackaging (cfg : RunConfig) : PyResult FS :=
  let stage1 := copy_packaging_folder ([] : FS) cfg.pkgSource
  let stage2 := clean_up_files stage1
  match update_apf_step stage2 cfg with
  | .exn e => .exn e
  | .ok stage3 => reverse_bitstreamRun stage3 cfg.author cfg.name cfg.rbf false

/-! ## Referenced placeholder names and well-formed trees -/

mutual

/-- The placeholder names a template references, mirroring the scan of
`pyFormat`: the names between each unescaped `{` and its closing `}`. -/
def refNames : List Char → List String
  | [] => []
  | '{' :: '{' :: rest => refNames rest
  | '{' :: rest => refNamesPlaceholder [] rest
  | '}' :: '}' :: rest => refNames rest
  | '}' :: _ => []
  | _ :: rest => refNames rest

/-- The names referenced from inside a placeholder being scanned. -/
def refNamesPlaceholder (acc : List Char) : List Char → List String
  | [] => []
  | '}' :: rest => String.mk acc :: refNames rest
  | c :: rest => refNamesPlaceholder (acc ++ [c]) rest

end

/-- A legal file or directory name: nonempty, without a path separator. -/
def wfName (s : String) : Bool :=
  !s.toList.isEmpty && s.toList.all (fun c => !(c = '/'))

mutual

/-- Every name in one entry (and below it) is a legal filesystem name. -/
def wfEntry : Entry → Bool
  | .file n _ => wfName n
  | .dir n ch => wfName n && wfTree ch

/-- Every name in the tree is a legal filesystem name. -/
def wfTree : List Entry → Bool
  | [] => true
  | e :: rest => wfEntry e && wfTree rest

end

/-- A concrete package source tree holding one valid `core.json`, used to
exercise the pipeline theorems. -/
def exPkgSource : FS :=
  [(["Cores", "acme.core1", "core.json"],
    FileData.json (JSON.obj [("core", JSON.obj [("metadata",
      JSON.obj [("version", JSON.str "v0"),
                ("date_release", JSON.str "2024-01-01")])])]))]

/-- A concrete run configuration over `exPkgSource` with a one-byte compiled
bitstream `0x80`. -/
def exCfg : RunConfig :=
  { author := "acme", name := "core1", pkgSource := exPkgSource,
    rbf := some [128], version := "v1.0.0", dateDash := "2026-10-12" }

/-- The stage folder the pipeline produces from `exCfg` at the start of
archive creation: the updated `core.json` and the reversed bitstream. -/
def exStage : FS :=
  [(["Cores", "acme.core1", "core.json"],
     FileData.json (JSON.obj [("core", JSON.obj [("metadata",
       JSON.obj [("version", JSON.str "v1.0.0"),
                 ("date_release", JSON.str "2026-10-12")])])])),
   (["Cores", "acme.core1", "bitstream.rbf_r"], FileData.bytes [1])]

set_option maxRecDepth 4096

/-! ## Claims about the bit reversal (C1, C2) -/

theorem reverseByte_testBit :
    ∀ b < 256, ∀ i < 8, (reverseByte b).testBit i = b.testBit (7 - i) := by
  decide

theorem reverseByte_lt : ∀ b < 256, reverseByte b < 256 := by
  decide

theorem reverseByte_involutive : ∀ b < 256, reverseByte (reverseByte b) = b := by
  decide

/-- C1: for every byte sequence, the bitstream reversal transform returns a
sequence of the same length in which each output byte is the bit-mirror of the
input byte at the same position (output bit `i` equals input bit `7 - i` for
`i < 8`); `0x80 -> 0x01`, `0xC0 -> 0x03`, `0x00 -> 0x00`, `0xFF -> 0xFF`;
byte order is unchanged (position `k` maps to position `k`) and the empty
input yields the empty output. -/
theorem reverse_bitstream_mirrors_bytes (bs : List Nat) (h : ∀ b ∈ bs, b < 256) :
    (reverse_bitstream_bytes bs).length = bs.length ∧
    (∀ k, (hk : k < bs.length) → ∀ i, i < 8 →
      ((reverse_bitstream_bytes bs).get
          ⟨k, by simpa [reverse_bitstream_bytes] using hk⟩).testBit i
        = (bs.get ⟨k, hk⟩).testBit (7 - i)) ∧
    reverseByte 0x80 = 0x01 ∧ reverseByte 0xC0 = 0x03 ∧
    reverseByte 0x00 = 0x00 ∧ reverseByte 0xFF = 0xFF ∧
    reverse_bitstream_bytes [] = [] := by
  refine ⟨by simp [reverse_bitstream_bytes], ?_, by decide, by decide, by decide,
    by decide, rfl⟩
  intro k hk i hi
  have hb : bs.get ⟨k, hk⟩ < 256 := h _ (List.get_mem bs k hk)
  simpa [reverse_bitstream_bytes, List.get_eq_getElem] using
    reverseByte_testBit _ hb i hi

theorem reverse_bitstream_mirrors_bytes_witness :
    (reverse_bitstream_bytes [128, 192]).length = [128, 192].length ∧
    (∀ k, (hk : k < [128, 192].length) → ∀ i, i < 8 →
      ((reverse_bitstream_bytes [128, 192]).get
          ⟨k, by simpa [reverse_bitstream_bytes] using hk⟩).testBit i
        = (([128, 192] : List Nat).get ⟨k, hk⟩).testBit (7 - i)) ∧
    reverseByte 0x80 = 0x01 ∧ reverseByte 0xC0 = 0x03 ∧
    reverseByte 0x00 = 0x00 ∧ reverseByte 0xFF = 0xFF ∧
    reverse_bitstream_bytes [] = [] :=
  reverse_bitstream_mirrors_bytes [128, 192] (by decide)

/-- C2: applying the bitstream bit-reversal transform twice returns the input
unchanged, for every sequence of bytes (values below 256). -/
theorem reverse_bitstream_involution (bs : List Nat) (h : ∀ b ∈ bs, b < 256) :
    reverse_bitstream_bytes (reverse_bitstream_bytes bs) = bs := by
  induction bs with
  | nil => rfl
  | cons b t ih =>
    have hb : b < 256 := h b (by simp)
    have ht : ∀ x ∈ t, x < 256 := fun x hx => h x (by simp [hx])
    simpa [reverse_bitstream_bytes] using
      ⟨reverseByte_involutive b hb, by simpa [reverse_bitstream_bytes] using ih ht⟩

theorem reverse_bitstream_involution_witness :
    reverse_bitstream_bytes (reverse_bitstream_bytes [128, 192, 0, 255, 1]) =
      [128, 192, 0, 255, 1] :=
  reverse_bitstream_involution [128, 192, 0, 255, 1] (by decide)

/-! ## Claims about error handling (C3, C4, C10) -/

/-- C10: when the staged `core.json` is missing or unparseable,
`read_json_file` returns `None` and `update_apf_core_json` then evaluates
`'core' in None`, raising an uncaught `TypeError` instead of reporting a
structural error. -/
theorem update_apf_typeError_on_unreadable (o : ReadOutcome)
    (h : o = ReadOutcome.fileNotFound ∨ o = ReadOutcome.jsonDecodeError)
    (version curDate : String) :
    update_apf_core_json (read_json_file o) version curDate =
      .exn .typeError := by
  rcases h with h | h <;> subst h <;> rfl

theorem update_apf_typeError_on_unreadable_witness :
    update_apf_core_json (read_json_file ReadOutcome.fileNotFound)
      "v1.0.0" "2026-10-12" = .exn .typeError :=
  update_apf_typeError_on_unreadable ReadOutcome.fileNotFound (Or.inl rfl)
    "v1.0.0" "2026-10-12"

/-- C4 counterexample: with a staged `core.json` that parses but lacks the
`core`/`metadata` keys (here the empty object), `update_apf_core_json`
returns normally after printing, and the pipeline run continues through the
bitstream step and completes — it does not abort. -/
theorem update_apf_missing_keys_counterexample :
    update_apf_core_json (some (JSON.obj [])) "v1.0.0" "2026-10-12" =
      .ok none ∧
    pipelineStageAtPackaging
        { author := "acme", name := "core1",
          pkgSource := [(["Cores", "acme.core1", "core.json"],
            FileData.json (JSON.obj []))],
          rbf := some [128], version := "v1.0.0", dateDash := "2026-10-12" } =
      .ok [(["Cores", "acme.core1", "core.json"], FileData.json (JSON.obj [])),
           (["Cores", "acme.core1", "bitstream.rbf_r"], FileData.bytes [1])] :=
  ⟨rfl, rfl⟩

/-- C4 amended: when the staged `core.json` parses but the nested keys
`core` and `core -> metadata` are not both present, `update_apf_core_json`
prints an error and returns normally without saving, and the pipeline
continues with the stage folder unchanged into the bitstream step. -/
theorem update_apf_missing_keys_soft (cfg : RunConfig) (data : JSON)
    (hread : readStageJson (clean_up_files (copy_packaging_folder [] cfg.pkgSource))
        (coreJsonPath cfg) = some data)
    (h : pyIn "core" data = .ok false ∨
      ∃ core, pyIn "core" data = .ok true ∧ pyGetItem data "core" = .ok core ∧
        pyIn "metadata" core = .ok false) :
    update_apf_core_json (some data) cfg.version cfg.dateDash = .ok none ∧
    pipelineStageAtPackaging cfg =
      reverse_bitstreamRun (clean_up_files (copy_packaging_folder [] cfg.pkgSource))
        cfg.author cfg.name cfg.rbf false := by
  have hupd : update_apf_core_json (some data) cfg.version cfg.dateDash = .ok none := by
    rcases h with h | ⟨core, h1, h2, h3⟩
    · simp [update_apf_core_json, h]
    · simp [update_apf_core_json, h1, h2, h3]
  refine ⟨hupd, ?_⟩
  simp only [pipelineStageAtPackaging, update_apf_step, hread, hupd]

theorem update_apf_missing_keys_soft_witness :
    update_apf_core_json (some (JSON.obj [("core", JSON.obj [])]))
      "v1.0.0" "2026-10-12" = .ok none ∧
    pipelineStageAtPackaging
        { author := "acme", name := "core1",
          pkgSource := [(["Cores", "acme.core1", "core.json"],
            FileData.json (JSON.obj [("core", JSON.obj [])]))],
          rbf := some [128], version := "v1.0.0", dateDash := "2026-10-12" } =
      reverse_bitstreamRun
        (clean_up_files (copy_packaging_folder []
          [(["Cores", "acme.core1", "core.json"],
            FileData.json (JSON.obj [("core", JSON.obj [])]))]))
        "acme" "core1" (some [128]) false :=
  update_apf_missing_keys_soft
    { author := "acme", name := "core1",
      pkgSource := [(["Cores", "acme.core1", "core.json"],
        FileData.json (JSON.obj [("core", JSON.obj [])]))],
      rbf := some [128], version := "v1.0.0", dateDash := "2026-10-12" }
    (JSON.obj [("core", JSON.obj [])]) rfl
    (Or.inr ⟨JSON.obj [], rfl, rfl, rfl⟩)

/-- C3 counterexample: an `IOError` during folder creation, during reading
the source bitstream or writing the reversed copy, or during writing an
archive, is caught and printed inside the respective function, which returns
normally — the run does not abort at that step. -/
theorem io_error_swallowed_counterexample :
    create_foldersRun ⟨true, false⟩ = .ok () ∧
    reverse_bitstreamRun [] "acme" "core1" none false = .ok [] ∧
    reverse_bitstreamRun [] "acme" "core1" (some [128]) true = .ok [] ∧
    create_zip_fileRun [Entry.file "a.txt" [1]] true = .ok none :=
  ⟨rfl, rfl, rfl, rfl⟩

/-- C3 amended: every I/O error in `create_folders`, `reverse_bitstream` and
`create_zip_file` is caught by the function's own exception handler and only
printed; each function returns normally for every fault configuration, so
the pipeline continues past the failed step. -/
theorem io_error_swallowed (f : FolderFaults) (stage : FS)
    (author name : String) (rbf : Option (List Nat)) (w : Bool)
    (t : List Entry) (wz : Bool) :
    create_foldersRun f = .ok () ∧
    (∃ s, reverse_bitstreamRun stage author name rbf w = .ok s) ∧
    (∃ r, create_zip_fileRun t wz = .ok r) := by
  refine ⟨?_, ?_, ?_⟩
  · unfold create_foldersRun create_foldersBody
    rcases f with ⟨s, r⟩
    cases s <;> cases r <;> rfl
  · unfold reverse_bitstreamRun reverse_bitstreamBody
    cases rbf <;> cases w <;> exact ⟨_, rfl⟩
  · unfold create_zip_fileRun create_zip_fileBody
    cases wz <;> exact ⟨_, rfl⟩

/-! ## Claims about cleanup (C7) -/

theorem globStageMatch_append (pat : List Char) :
    ∀ (ds : List String) (base : String),
      globStageMatch pat (ds ++ [base]) =
        (ds.all (fun d => !isHiddenName d) && globCompMatch pat base) := by
  intro ds base
  induction ds with
  | nil => simp [globStageMatch]
  | cons d ds ih =>
    cases ds with
    | nil => simp [globStageMatch]
    | cons e ds2 =>
      simp only [globStageMatch, List.all_cons, Bool.and_assoc, List.append_eq,
        List.cons_append] at ih ⊢
      rw [ih]

theorem any_and_left {α : Type} (A : Bool) (l : List α) (f : α → Bool) :
    l.any (fun x => A && f x) = (A && l.any f) := by
  induction l with
  | nil => simp
  | cons x l ih => simp [List.any_cons, ih, Bool.and_or_distrib_left]

theorem any_congr_fn {α : Type} (l : List α) (f g : α → Bool)
    (h : ∀ x ∈ l, f x = g x) : l.any f = l.any g := by
  induction l with
  | nil => rfl
  | cons x l ih =>
    simp only [List.any_cons, h x (by simp)]
    rw [ih (fun y hy => h y (by simp [hy]))]

theorem matchesCleanup_append (ds : List String) (base : String) :
    matchesCleanup (ds ++ [base]) =
      (ds.all (fun d => !isHiddenName d) &&
        file_patterns.any (fun pat => globCompMatch pat base)) := by
  unfold matchesCleanup
  calc file_patterns.any (fun pat => globStageMatch pat (ds ++ [base]))
      = file_patterns.any (fun pat =>
          ds.all (fun d => !isHiddenName d) && globCompMatch pat base) :=
        any_congr_fn _ _ _ (fun pat _ => globStageMatch_append pat ds base)
    _ = _ := any_and_left _ _ _

/-- C7 counterexample: the base filename `.gitkeep` wildcard-matches the
pattern `*.gitkeep` (the `*` matches the empty prefix), yet `clean_up_files`
does not delete such a file: `glob` never returns names starting with a dot
for a pattern that does not itself start with a dot. -/
theorem cleanup_misses_hidden_counterexample :
    wildMatch ("*.gitkeep".toList) (".gitkeep".toList) = true ∧
    clean_up_files [([".gitkeep"], FileData.bytes [7])] =
      [([".gitkeep"], FileData.bytes [7])] :=
  ⟨by decide, rfl⟩

/-- C7 amended: `clean_up_files` deletes exactly the files whose relative
path is returned by the recursive glob of some pattern: every ancestor
directory component and the base filename must not start with a dot (the
patterns do not start with a dot), and the base filename must wildcard-match
some pattern.  Matching files are deleted, non-matching files are kept with
their contents untouched, nothing is added, a second run is a no-op, and of
`a.png`, `b.rbf`, `c.txt` only `a.png` is removed. -/
theorem clean_up_files_glob (fs : FS) :
    (∀ pd ∈ fs, matchesCleanup pd.1 = true → pd ∉ clean_up_files fs) ∧
    (∀ pd ∈ fs, matchesCleanup pd.1 = false → pd ∈ clean_up_files fs) ∧
    (∀ pd ∈ clean_up_files fs, pd ∈ fs) ∧
    clean_up_files (clean_up_files fs) = clean_up_files fs ∧
    (∀ (ds : List String) (base : String),
      matchesCleanup (ds ++ [base]) =
        (ds.all (fun d => !isHiddenName d) &&
          file_patterns.any (fun pat => globCompMatch pat base))) ∧
    clean_up_files
        [(["a.png"], FileData.bytes [1]), (["b.rbf"], FileData.bytes [2]),
         (["c.txt"], FileData.bytes [3])] =
      [(["b.rbf"], FileData.bytes [2]), (["c.txt"], FileData.bytes [3])] := by
  refine ⟨?_, ?_, ?_, ?_, matchesCleanup_append, rfl⟩
  · intro pd hmem hmatch hcontra
    rw [clean_up_files, List.mem_filter] at hcontra
    rw [hmatch] at hcontra
    simp at hcontra
  · intro pd hmem hmatch
    rw [clean_up_files, List.mem_filter, hmatch]
    exact ⟨hmem, rfl⟩
  · intro pd hmem
    exact (List.mem_filter.mp hmem).1
  · rw [clean_up_files, clean_up_files, List.filter_filter]
    apply List.filter_congr
    intro pd _
    cases matchesCleanup pd.1 <;> rfl

/-! ## Claims about the stage-folder invariant (C5) -/

theorem writeFS_mem :
    ∀ (fs : FS) (p : Path) (d : FileData) (q : Path) (e : FileData),
      (q, e) ∈ writeFS fs p d → (q, e) ∈ fs ∨ q = p := by
  intro fs p d
  induction fs with
  | nil =>
    intro q e h
    simp only [writeFS, List.mem_singleton, Prod.mk.injEq] at h
    exact Or.inr h.1
  | cons hd tl ih =>
    intro q e h
    rcases hd with ⟨q0, e0⟩
    by_cases hq : q0 = p
    · rw [writeFS, if_pos hq] at h
      rcases List.mem_cons.mp h with h1 | h1
      · exact Or.inr (congrArg Prod.fst h1)
      · exact Or.inl (List.mem_cons_of_mem _ h1)
    · rw [writeFS, if_neg hq] at h
      rcases List.mem_cons.mp h with h1 | h1
      · exact Or.inl (by simp [h1])
      · rcases ih q e h1 with h2 | h2
        · exact Or.inl (List.mem_cons_of_mem _ h2)
        · exact Or.inr h2

theorem writeFS_self :
    ∀ (fs : FS) (p : Path) (d : FileData), (p, d) ∈ writeFS fs p d := by
  intro fs p d
  induction fs with
  | nil => simp [writeFS]
  | cons hd tl ih =>
    rcases hd with ⟨q0, e0⟩
    by_cases hq : q0 = p
    · rw [writeFS, if_pos hq]
      exact List.mem_cons_self _ _
    · rw [writeFS, if_neg hq]
      exact List.mem_cons_of_mem _ ih

theorem writeFS_mem_of_ne :
    ∀ (fs : FS) (p : Path) (d : FileData) (q : Path) (e : FileData),
      (q, e) ∈ fs → q ≠ p → (q, e) ∈ writeFS fs p d := by
  intro fs p d
  induction fs with
  | nil => intro q e h _; cases h
  | cons hd tl ih =>
    intro q e h hne
    rcases hd with ⟨q0, e0⟩
    by_cases hq : q0 = p
    · rw [writeFS, if_pos hq]
      rcases List.mem_cons.mp h with h1 | h1
      · exact absurd ((congrArg Prod.fst h1).trans hq) hne
      · exact List.mem_cons_of_mem _ h1
    · rw [writeFS, if_neg hq]
      rcases List.mem_cons.mp h with h1 | h1
      · rw [h1]
        exact List.mem_cons_self _ _
      · exact List.mem_cons_of_mem _ (ih q e h1 hne)

theorem coreJsonPath_ne_bitstreamPath (cfg : RunConfig) :
    coreJsonPath cfg ≠ bitstreamPath cfg := by
  simp [coreJsonPath, bitstreamPath]

/-- C5 counterexample: a run over a package source holding only a valid
`core.json`, with a one-byte compiled bitstream `0x80`, reaches archive
creation with the stage folder containing the generated file
`Cores/acme.core1/bitstream.rbf_r` — a file that does not originate from the
package source folder, so the stage folder does not contain only the merged,
cleaned source contents. -/
theorem stage_contains_generated_file_counterexample :
    pipelineStageAtPackaging
        { author := "acme", name := "core1",
          pkgSource := [(["Cores", "acme.core1", "core.json"],
            FileData.json (JSON.obj [("core", JSON.obj [("metadata",
              JSON.obj [("version", JSON.str "v0"),
                        ("date_release", JSON.str "2024-01-01")])])]))],
          rbf := some [128], version := "v1.0.0", dateDash := "2026-10-12" } =
      .ok [(["Cores", "acme.core1", "core.json"],
             FileData.json (JSON.obj [("core", JSON.obj [("metadata",
               JSON.obj [("version", JSON.str "v1.0.0"),
                         ("date_release", JSON.str "2026-10-12")])])])),
           (["Cores", "acme.core1", "bitstream.rbf_r"], FileData.bytes [1])] ∧
    (["Cores", "acme.core1", "bitstream.rbf_r"] : Path) ∉
      (clean_up_files (copy_packaging_folder []
        [(["Cores", "acme.core1", "core.json"],
          FileData.json (JSON.obj [("core", JSON.obj [("metadata",
            JSON.obj [("version", JSON.str "v0"),
                      ("date_release", JSON.str "2024-01-01")])])]))])).map
        Prod.fst :=
  ⟨rfl, by decide⟩

/-- C5 amended: at the start of archive creation the stage folder contains
exactly the cleaned merge of the target's package source folder, up to two
pipeline-generated differences.  Upper bound: every staged file is a cleaned
source file or sits at the `core.json` or `bitstream.rbf_r` path.  Lower
bounds: every cleaned source file away from those two paths (away from
`core.json` alone when no bitstream is written) is still present unchanged;
a cleaned source `core.json` is still present, either unchanged or exactly
as rewritten by the metadata step; and when the compiled bitstream was
readable its reversed copy is present. -/
theorem stage_at_packaging_contents (cfg : RunConfig) (fs : FS)
    (h : pipelineStageAtPackaging cfg = .ok fs) :
    (∀ q e, (q, e) ∈ fs →
      (q, e) ∈ clean_up_files (copy_packaging_folder [] cfg.pkgSource) ∨
      q = coreJsonPath cfg ∨ q = bitstreamPath cfg) ∧
    (∀ q e, (q, e) ∈ clean_up_files (copy_packaging_folder [] cfg.pkgSource) →
      q ≠ coreJsonPath cfg → (q ≠ bitstreamPath cfg ∨ cfg.rbf = none) →
      (q, e) ∈ fs) ∧
    (∀ e, (coreJsonPath cfg, e) ∈
        clean_up_files (copy_packaging_folder [] cfg.pkgSource) →
      ∃ e2, (coreJsonPath cfg, e2) ∈ fs ∧
        (e2 = e ∨ ∃ d, update_apf_core_json
            (readStageJson (clean_up_files (copy_packaging_folder [] cfg.pkgSource))
              (coreJsonPath cfg)) cfg.version cfg.dateDash = .ok (some d) ∧
          e2 = FileData.json d)) ∧
    (∀ bs, cfg.rbf = some bs →
      (bitstreamPath cfg, FileData.bytes (reverse_bitstream_bytes bs)) ∈ fs) := by
  simp only [pipelineStageAtPackaging] at h
  cases hu : update_apf_step (clean_up_files (copy_packaging_folder [] cfg.pkgSource)) cfg with
  | exn e => rw [hu] at h; cases h
  | ok stage3 =>
    rw [hu] at h
    have hstage3 : stage3 = clean_up_files (copy_packaging_folder [] cfg.pkgSource) ∨
        ∃ d, update_apf_core_json
            (readStageJson (clean_up_files (copy_packaging_folder [] cfg.pkgSource))
              (coreJsonPath cfg)) cfg.version cfg.dateDash = .ok (some d) ∧
          stage3 = writeFS (clean_up_files (copy_packaging_folder [] cfg.pkgSource))
            (coreJsonPath cfg) (.json d) := by
      unfold update_apf_step at hu
      cases hup : update_apf_core_json
          (readStageJson (clean_up_files (copy_packaging_folder [] cfg.pkgSource))
            (coreJsonPath cfg)) cfg.version cfg.dateDash with
      | exn e => rw [hup] at hu; cases hu
      | ok od =>
        rw [hup] at hu
        cases od with
        | none =>
          simp only [PyResult.ok.injEq] at hu
          exact Or.inl hu.symm
        | some d =>
          simp only [PyResult.ok.injEq] at hu
          exact Or.inr ⟨d, rfl, hu.symm⟩
    have hmem3 : ∀ q e, (q, e) ∈ stage3 →
        (q, e) ∈ clean_up_files (copy_packaging_folder [] cfg.pkgSource) ∨
        q = coreJsonPath cfg := by
      intro q e hin
      rcases hstage3 with h3 | ⟨d, _, h3⟩
      · rw [h3] at hin; exact Or.inl hin
      · rw [h3] at hin
        exact writeFS_mem _ _ _ _ _ hin
    have hlow3 : ∀ q e,
        (q, e) ∈ clean_up_files (copy_packaging_folder [] cfg.pkgSource) →
        q ≠ coreJsonPath cfg → (q, e) ∈ stage3 := by
      intro q e hin hne
      rcases hstage3 with h3 | ⟨d, _, h3⟩
      · rw [h3]; exact hin
      · rw [h3]; exact writeFS_mem_of_ne _ _ _ _ _ hin hne
    have hcore3 : ∀ e, (coreJsonPath cfg, e) ∈
        clean_up_files (copy_packaging_folder [] cfg.pkgSource) →
        ∃ e2, (coreJsonPath cfg, e2) ∈ stage3 ∧
          (e2 = e ∨ ∃ d, update_apf_core_json
              (readStageJson (clean_up_files (copy_packaging_folder [] cfg.pkgSource))
                (coreJsonPath cfg)) cfg.version cfg.dateDash = .ok (some d) ∧
            e2 = FileData.json d) := by
      intro e hin
      rcases hstage3 with h3 | ⟨d, hupd, h3⟩
      · refine ⟨e, ?_, Or.inl rfl⟩
        rw [h3]; exact hin
      · refine ⟨FileData.json d, ?_, Or.inr ⟨d, hupd, rfl⟩⟩
        rw [h3]; exact writeFS_self _ _ _
    cases hrbf : cfg.rbf with
    | none =>
      rw [hrbf] at h
      simp only [reverse_bitstreamRun, reverse_bitstreamBody, PyResult.ok.injEq] at h
      refine ⟨?_, ?_, ?_, ?_⟩
      · intro q e hin
        rw [← h] at hin
        rcases hmem3 q e hin with h4 | h4
        · exact Or.inl h4
        · exact Or.inr (Or.inl h4)
      · intro q e hin hne _
        rw [← h]
        exact hlow3 q e hin hne
      · intro e hin
        rcases hcore3 e hin with ⟨e2, hmem, hfrm⟩
        refine ⟨e2, ?_, hfrm⟩
        rw [← h]
        exact hmem
      · intro bs hbs
        cases hbs
    | some bs =>
      rw [hrbf] at h
      simp only [reverse_bitstreamRun, reverse_bitstreamBody, Bool.false_eq_true,
        if_false, PyResult.ok.injEq] at h
      refine ⟨?_, ?_, ?_, ?_⟩
      · intro q e hin
        rw [← h] at hin
        rcases writeFS_mem _ _ _ _ _ hin with h4 | h4
        · rcases hmem3 q e h4 with h5 | h5
          · exact Or.inl h5
          · exact Or.inr (Or.inl h5)
        · exact Or.inr (Or.inr h4)
      · intro q e hin hne hd
        rcases hd with hd | hd
        · rw [← h]
          exact writeFS_mem_of_ne _ _ _ _ _ (hlow3 q e hin hne) hd
        · cases hd
      · intro e hin
        rcases hcore3 e hin with ⟨e2, hmem, hfrm⟩
        refine ⟨e2, ?_, hfrm⟩
        rw [← h]
        exact writeFS_mem_of_ne _ _ _ _ _ hmem (coreJsonPath_ne_bitstreamPath cfg)
      · intro bs2 hbs
        injection hbs with hbs2
        subst hbs2
        rw [← h]
        exact writeFS_self _ _ _

theorem stage_at_packaging_contents_witness :
    (∀ q e, (q, e) ∈ exStage →
      (q, e) ∈ clean_up_files (copy_packaging_folder [] exCfg.pkgSource) ∨
      q = coreJsonPath exCfg ∨ q = bitstreamPath exCfg) ∧
    (∀ q e, (q, e) ∈ clean_up_files (copy_packaging_folder [] exCfg.pkgSource) →
      q ≠ coreJsonPath exCfg → (q ≠ bitstreamPath exCfg ∨ exCfg.rbf = none) →
      (q, e) ∈ exStage) ∧
    (∀ e, (coreJsonPath exCfg, e) ∈
        clean_up_files (copy_packaging_folder [] exCfg.pkgSource) →
      ∃ e2, (coreJsonPath exCfg, e2) ∈ exStage ∧
        (e2 = e ∨ ∃ d, update_apf_core_json
            (readStageJson (clean_up_files (copy_packaging_folder [] exCfg.pkgSource))
              (coreJsonPath exCfg)) exCfg.version exCfg.dateDash = .ok (some d) ∧
          e2 = FileData.json d)) ∧
    (∀ bs, exCfg.rbf = some bs →
      (bitstreamPath exCfg, FileData.bytes (reverse_bitstream_bytes bs)) ∈ exStage) :=
  stage_at_packaging_contents exCfg exStage rfl

/-! ## Claims about filename templating (C8, C9) -/

theorem pyFormat_lit (vars : List (String × String)) (c : Char) (rest : List Char)
    (h1 : c ≠ '{') (h2 : c ≠ '}') :
    pyFormat vars (c :: rest) =
      match pyFormat vars rest with
      | .ok cs => .ok (c :: cs)
      | .exn e => .exn e := by
  rw [pyFormat.eq_def]
  split <;> simp_all

theorem pyFormat_open (vars : List (String × String)) (rest : List Char)
    (h : ∀ rest2, rest ≠ '{' :: rest2) :
    pyFormat vars ('{' :: rest) = pyPlaceholder vars [] rest := by
  cases rest with
  | nil => rfl
  | cons d rest2 =>
    have hd : d ≠ '{' := fun hc => h rest2 (by rw [hc])
    rw [pyFormat.eq_def]
    split
    · simp_all
    · simp_all
    · rename_i heq
      simp only [List.cons.injEq] at heq
      simp [heq.2]
    · simp_all
    · simp_all
    · rename_i heq
      injection heq with e1 e2
      subst e1
      subst e2
      simp_all

theorem pyPlaceholder_lit (vars : List (String × String)) (acc : List Char)
    (c : Char) (rest : List Char) (h : c ≠ '}') :
    pyPlaceholder vars acc (c :: rest) = pyPlaceholder vars (acc ++ [c]) rest := by
  rw [pyPlaceholder.eq_def]
  split <;> simp_all

theorem pyPlaceholder_scan (vars : List (String × String)) :
    ∀ (nm acc post : List Char), '}' ∉ nm →
      pyPlaceholder vars acc (nm ++ '}' :: post) =
        pyPlaceholder vars (acc ++ nm) ('}' :: post) := by
  intro nm
  induction nm with
  | nil => intro acc post _; simp
  | cons c nm ih =>
    intro acc post h
    have hc : c ≠ '}' := fun hcontra => h (by simp [hcontra])
    rw [List.cons_append, pyPlaceholder_lit vars acc c _ hc,
      ih _ post (fun hm => h (by simp [hm])), List.append_assoc,
      List.singleton_append]

/-- C9 amended: the release template is rendered with all five of author,
core, version, date and target, but the metadata template is rendered with
only author, core, version and date (no target); and a template containing a
placeholder whose name is not among the supplied variables makes `.format`
raise `KeyError` with that name, rather than leaving placeholder text in the
output. -/
theorem render_vars_and_missing_placeholder
    (vars : List (String × String)) (pre nm post : List Char)
    (h1 : '{' ∉ pre) (h2 : '}' ∉ pre) (h3 : '{' ∉ nm) (h4 : '}' ∉ nm)
    (h5 : lookupVar vars (String.mk nm) = none) :
    (∀ a n v d t, (releaseVars a n v d t).map Prod.fst =
      ["author", "core", "version", "date", "target"]) ∧
    (∀ a n v d, (metadataVars a n v d).map Prod.fst =
      ["author", "core", "version", "date"]) ∧
    pyFormat vars (pre ++ '{' :: (nm ++ '}' :: post)) =
      .exn (.keyError (String.mk nm)) := by
  refine ⟨fun a n v d t => rfl, fun a n v d => rfl, ?_⟩
  induction pre with
  | nil =>
    have hhead : ∀ rest2, nm ++ '}' :: post ≠ '{' :: rest2 := by
      intro rest2 hcontra
      cases nm with
      | nil => simp at hcontra
      | cons c nm2 =>
        have : c = '{' := by simpa using congrArg (fun l => l.head?) hcontra
        exact h3 (by simp [this])
    rw [List.nil_append, pyFormat_open vars _ hhead,
      pyPlaceholder_scan vars nm [] post h4, pyPlaceholder.eq_def]
    simp [h5]
  | cons c pre ih =>
    have hc1 : c ≠ '{' := fun hcontra => h1 (by simp [hcontra])
    have hc2 : c ≠ '}' := fun hcontra => h2 (by simp [hcontra])
    rw [List.cons_append, pyFormat_lit vars c _ hc1 hc2,
      ih (fun hm => h1 (by simp [hm])) (fun hm => h2 (by simp [hm]))]

theorem render_vars_and_missing_placeholder_witness :
    (∀ a n v d t, (releaseVars a n v d t).map Prod.fst =
      ["author", "core", "version", "date", "target"]) ∧
    (∀ a n v d, (metadataVars a n v d).map Prod.fst =
      ["author", "core", "version", "date"]) ∧
    pyFormat (metadataVars "acme" "core1" "v1.0.0" "20261012")
        ("meta_".toList ++ '{' :: ("target".toList ++ '}' :: ".pkg".toList)) =
      .exn (.keyError (String.mk "target".toList)) :=
  render_vars_and_missing_placeholder
    (metadataVars "acme" "core1" "v1.0.0" "20261012")
    "meta_".toList "target".toList ".pkg".toList
    (by decide) (by decide) (by decide) (by decide) rfl

/-- C9 counterexample: `create_metadata_package` supplies only author, core,
version and date — not target — so its variable set does not contain all
five and a metadata template referencing `{target}` raises
`KeyError('target')`. -/
theorem metadata_vars_counterexample :
    ((metadataVars "acme" "core1" "v1.0.0" "20261012").map Prod.fst =
      ["author", "core", "version", "date"]) ∧
    lookupVar (metadataVars "acme" "core1" "v1.0.0" "20261012") "target" = none ∧
    create_metadata_package (some "meta_{target}") "acme" "core1" "v1.0.0"
      "20261012" = .exn (.keyError "target") :=
  ⟨rfl, rfl, rfl⟩

theorem digitChar_isDigit : ∀ r < 10, (digitChar r).isDigit = true := by
  decide

/-- C8: rendering substitutes each named placeholder and the result is
lower-cased after substitution; `core_{author}_{version}.bin` with
author `acme` and version `1.2.3` renders to `core_acme_1.2.3.bin`; the
supplied date variable is the 8-digit `YYYYMMDD` form of the current date. -/
theorem render_substitutes_then_lowercases
    (tmpl author name version date8 target s : String)
    (h : create_release_package (some tmpl) author name version date8 target =
      .ok (some s)) :
    (∃ cs, pyFormat (releaseVars author name version date8 target) tmpl.toList =
        .ok cs ∧ s = String.mk (pyLower cs) ++ ".zip") ∧
    pyFormat (releaseVars "acme" "core1" "1.2.3" "20261012" "pocket")
        ("core_{author}_{version}.bin".toList) =
      .ok ("core_acme_1.2.3.bin".toList) ∧
    create_release_package (some "core_{author}_{version}.bin") "Acme" "core1"
        "1.2.3" "20261012" "pocket" = .ok (some "core_acme_1.2.3.bin.zip") ∧
    strftimeYYYYMMDD 2026 10 12 = "20261012" ∧
    (∀ y m d, (strftimeYYYYMMDD y m d).length = 8 ∧
      ∀ c ∈ (strftimeYYYYMMDD y m d).toList, c.isDigit = true) := by
  refine ⟨?_, rfl, rfl, rfl, ?_⟩
  · cases hf : pyFormat (releaseVars author name version date8 target) tmpl.toList with
    | ok cs =>
      refine ⟨cs, rfl, ?_⟩
      simp only [create_release_package, hf] at h
      simp only [PyResult.ok.injEq, Option.some.injEq] at h
      exact h.symm
    | exn e =>
      simp only [create_release_package, hf] at h
      cases h
  · intro y m d
    constructor
    · rfl
    · intro c hc
      have hl : (strftimeYYYYMMDD y m d).toList =
          [digitChar (y / 1000 % 10), digitChar (y / 100 % 10),
           digitChar (y / 10 % 10), digitChar (y % 10),
           digitChar (m / 10 % 10), digitChar (m % 10),
           digitChar (d / 10 % 10), digitChar (d % 10)] := rfl
      rw [hl] at hc
      have hdig : ∀ r, (digitChar (r % 10)).isDigit = true :=
        fun r => digitChar_isDigit _ (Nat.mod_lt _ (by norm_num))
      simp only [List.mem_cons, List.not_mem_nil, or_false] at hc
      rcases hc with h | h | h | h | h | h | h | h <;> simp [h, hdig]

/-! ## Claims about archive building (C6) -/

theorem mem_levelFiles (q : Path) (c : List Nat) (pre : Path) :
    ∀ es : List Entry,
      ((q, c) ∈ levelFiles pre es ↔ ∃ n, q = pre ++ [n] ∧ Entry.file n c ∈ es) := by
  intro es
  induction es with
  | nil => simp [levelFiles]
  | cons en rest ih =>
    cases en with
    | file m d =>
      simp only [levelFiles, List.mem_cons, ih, Prod.mk.injEq]
      constructor
      · rintro (⟨hq, hc⟩ | ⟨n, hq, hmem⟩)
        · exact ⟨m, hq, Or.inl (by rw [hc])⟩
        · exact ⟨n, hq, Or.inr hmem⟩
      · rintro ⟨n, hq, h1 | h1⟩
        · injection h1 with e1 e2
          subst e1; subst e2
          exact Or.inl ⟨hq, rfl⟩
        · exact Or.inr ⟨n, hq, h1⟩
    | dir m ch =>
      simp only [levelFiles, ih, List.mem_cons]
      constructor
      · rintro ⟨n, hq, hmem⟩
        exact ⟨n, hq, Or.inr hmem⟩
      · rintro ⟨n, hq, h1 | h1⟩
        · cases h1
        · exact ⟨n, hq, h1⟩

theorem mem_subWalk (q : Path) (c : List Nat) :
    ∀ (pre : Path) (es : List Entry),
      ((q, c) ∈ subWalk pre es ↔
        ∃ n ch p, Entry.dir n ch ∈ es ∧ FileAt ch p c ∧ q = pre ++ n :: p)
  | pre, [] => by simp [subWalk]
  | pre, .file m d :: rest => by
    simp only [subWalk, dirWalk, List.nil_append]
    rw [mem_subWalk q c pre rest]
    constructor
    · rintro ⟨n, ch, p, hmem, hat, hq⟩
      exact ⟨n, ch, p, List.mem_cons_of_mem _ hmem, hat, hq⟩
    · rintro ⟨n, ch, p, hmem, hat, hq⟩
      rcases List.mem_cons.mp hmem with h1 | h1
      · cases h1
      · exact ⟨n, ch, p, h1, hat, hq⟩
  | pre, .dir m ch0 :: rest => by
    simp only [subWalk, dirWalk, List.mem_append]
    rw [mem_levelFiles q c (pre ++ [m]) ch0, mem_subWalk q c (pre ++ [m]) ch0,
      mem_subWalk q c pre rest]
    constructor
    · rintro ((⟨n, hq, hmem⟩ | ⟨n, ch, p, hmem, hat, hq⟩) | ⟨n, ch, p, hmem, hat, hq⟩)
      · exact ⟨m, ch0, [n], List.mem_cons_self _ _, FileAt.here hmem,
          by simp [hq]⟩
      · exact ⟨m, ch0, n :: p, List.mem_cons_self _ _, FileAt.there hmem hat,
          by simp [hq]⟩
      · exact ⟨n, ch, p, List.mem_cons_of_mem _ hmem, hat, hq⟩
    · rintro ⟨n, ch, p, hmem, hat, hq⟩
      rcases List.mem_cons.mp hmem with h1 | h1
      · injection h1 with e1 e2
        subst e1; subst e2
        cases hat with
        | here hmem2 => exact Or.inl (Or.inl ⟨_, by simp [hq], hmem2⟩)
        | there hmem2 hat2 =>
          exact Or.inl (Or.inr ⟨_, _, _, hmem2, hat2, by simp [hq]⟩)
      · exact Or.inr ⟨n, ch, p, h1, hat, hq⟩

theorem mem_walkFiles (q : Path) (c : List Nat) (pre : Path) (es : List Entry) :
    (q, c) ∈ walkFiles pre es ↔ ∃ p, q = pre ++ p ∧ FileAt es p c := by
  simp only [walkFiles, List.mem_append]
  rw [mem_levelFiles q c pre es, mem_subWalk q c pre es]
  constructor
  · rintro (⟨n, hq, hmem⟩ | ⟨n, ch, p, hmem, hat, hq⟩)
    · exact ⟨[n], hq, FileAt.here hmem⟩
    · exact ⟨n :: p, hq, FileAt.there hmem hat⟩
  · rintro ⟨p, hq, hat⟩
    cases hat with
    | here hmem => exact Or.inl ⟨_, hq, hmem⟩
    | there hmem hat2 => exact Or.inr ⟨_, _, _, hmem, hat2, hq⟩

theorem splitSlash_no_slash : ∀ cs : List Char, '/' ∉ cs → splitSlash cs = [cs] := by
  intro cs
  induction cs with
  | nil => intro _; rfl
  | cons c rest ih =>
    intro h
    have hc : ¬(c = '/') := fun hcontra => h (by simp [hcontra])
    rw [splitSlash, if_neg hc, ih (fun hm => h (by simp [hm]))]

theorem splitSlash_append :
    ∀ (xs ys : List Char), '/' ∉ xs →
      splitSlash (xs ++ '/' :: ys) = xs :: splitSlash ys := by
  intro xs
  induction xs with
  | nil =>
    intro ys _
    simp [splitSlash]
  | cons c rest ih =>
    intro ys h
    have hc : ¬(c = '/') := fun hcontra => h (by simp [hcontra])
    rw [List.cons_append, splitSlash, if_neg hc,
      ih ys (fun hm => h (by simp [hm]))]

theorem splitSlash_joinComps :
    ∀ ps : List String, ps ≠ [] → (∀ s ∈ ps, '/' ∉ s.toList) →
      splitSlash (joinComps ps) = ps.map String.toList
  | [], h, _ => absurd rfl h
  | [s], _, hs => by
    rw [joinComps, List.map]
    exact splitSlash_no_slash _ (hs s (by simp))
  | s :: s2 :: rest, _, hs => by
    rw [show joinComps (s :: s2 :: rest) = s.toList ++ '/' :: joinComps (s2 :: rest)
        from rfl,
      splitSlash_append _ _ (hs s (by simp)),
      splitSlash_joinComps (s2 :: rest) (by simp)
        (fun x hx => hs x (List.mem_cons_of_mem _ hx))]
    rfl

theorem extractName_zipEntryName (p : Path) (hne : p ≠ [])
    (hs : ∀ s ∈ p, '/' ∉ s.toList) :
    extractName (zipEntryName p) = p := by
  unfold extractName zipEntryName
  rw [show (String.mk (joinComps p)).toList = joinComps p from rfl,
    splitSlash_joinComps p hne hs, List.map_map]
  exact List.map_id p

theorem wfTree_file :
    ∀ (es : List Entry) (n : String) (c : List Nat),
      wfTree es = true → Entry.file n c ∈ es → wfName n = true := by
  intro es
  induction es with
  | nil => intro n c _ hmem; cases hmem
  | cons en rest ih =>
    intro n c hwf hmem
    simp only [wfTree, Bool.and_eq_true] at hwf
    rcases List.mem_cons.mp hmem with h1 | h1
    · subst h1
      simpa [wfEntry] using hwf.1
    · exact ih n c hwf.2 h1

theorem wfTree_dir :
    ∀ (es : List Entry) (n : String) (ch : List Entry),
      wfTree es = true → Entry.dir n ch ∈ es →
      wfName n = true ∧ wfTree ch = true := by
  intro es
  induction es with
  | nil => intro n ch _ hmem; cases hmem
  | cons en rest ih =>
    intro n ch hwf hmem
    simp only [wfTree, Bool.and_eq_true] at hwf
    rcases List.mem_cons.mp hmem with h1 | h1
    · subst h1
      simpa [wfEntry, Bool.and_eq_true] using hwf.1
    · exact ih n ch hwf.2 h1

theorem fileAt_wf_names :
    ∀ (es : List Entry) (p : Path) (c : List Nat),
      wfTree es = true → FileAt es p c →
      p ≠ [] ∧ ∀ s ∈ p, wfName s = true := by
  intro es p c hwf hat
  induction hat with
  | here hmem =>
    rename_i es2 n c2
    refine ⟨by simp, ?_⟩
    intro s hsm
    rcases List.mem_singleton.mp hsm with h1
    subst h1
    exact wfTree_file _ _ _ hwf hmem
  | there hmem hat2 ih =>
    rename_i es2 n ch p2 c2
    have hd := wfTree_dir _ _ _ hwf hmem
    refine ⟨by simp, ?_⟩
    intro s hsm
    rcases List.mem_cons.mp hsm with h1 | h1
    · subst h1; exact hd.1
    · exact (ih hd.2).2 s h1

/-- C6: the zip (and identically the tar.gz) archive of a source directory
has as members exactly the regular files under the directory, each named by
the file's path relative to the source directory joined with `/` (no leading
source-directory component exists in the model: paths are relative to the
root), and extracting the archive reproduces exactly the relative file paths
and byte contents; concretely, a tree with `a.txt` and `sub/b.bin` yields
members `a.txt` and `sub/b.bin`. -/
theorem archive_entries_and_roundtrip (t : List Entry) (hwf : wfTree t = true) :
    create_tar_gz t = create_zip_file t ∧
    (∀ p c, (p, c) ∈ walkFiles [] t ↔ FileAt t p c) ∧
    (∀ nm c, (nm, c) ∈ create_zip_file t ↔
      ∃ p, FileAt t p c ∧ nm = zipEntryName p) ∧
    extractArchive (create_zip_file t) = walkFiles [] t ∧
    create_zip_file [Entry.file "a.txt" [1],
        Entry.dir "sub" [Entry.file "b.bin" [2, 3]]] =
      [("a.txt", [1]), ("sub/b.bin", [2, 3])] := by
  have hwalk : ∀ p c, (p, c) ∈ walkFiles [] t ↔ FileAt t p c := by
    intro p c
    rw [mem_walkFiles p c [] t]
    simp
  refine ⟨rfl, hwalk, ?_, ?_, rfl⟩
  · intro nm c
    simp only [create_zip_file, List.mem_map, Prod.mk.injEq, Prod.exists]
    constructor
    · rintro ⟨p, c2, hmem, hnm, hc⟩
      subst hc
      exact ⟨p, (hwalk p _).mp hmem, hnm.symm⟩
    · rintro ⟨p, hat, hnm⟩
      exact ⟨p, c, (hwalk p c).mpr hat, hnm.symm, rfl⟩
  · unfold extractArchive create_zip_file
    rw [List.map_map]
    have : ∀ pc ∈ walkFiles [] t,
        ((fun nc => (extractName nc.1, nc.2)) ∘
          fun pc => (zipEntryName pc.1, pc.2)) pc = id pc := by
      rintro ⟨p, c⟩ hmem
      have hat := (hwalk p c).mp hmem
      have hnames := fileAt_wf_names t p c hwf hat
      have hslash : ∀ s ∈ p, '/' ∉ s.toList := by
        intro s hsm hcontra
        have hn := hnames.2 s hsm
        simp only [wfName, Bool.and_eq_true, List.all_eq_true] at hn
        have := hn.2 '/' hcontra
        simp at this
      simp only [Function.comp_apply, id_eq]
      rw [extractName_zipEntryName p hnames.1 hslash]
    rw [List.map_congr_left this, List.map_id]

theorem archive_entries_and_roundtrip_witness :
    create_tar_gz [Entry.file "a.txt" [1],
        Entry.dir "sub" [Entry.file "b.bin" [2, 3]]] =
      create_zip_file [Entry.file "a.txt" [1],
        Entry.dir "sub" [Entry.file "b.bin" [2, 3]]] ∧
    (∀ p c, (p, c) ∈ walkFiles [] [Entry.file "a.txt" [1],
        Entry.dir "sub" [Entry.file "b.bin" [2, 3]]] ↔
      FileAt [Entry.file "a.txt" [1],
        Entry.dir "sub" [Entry.file "b.bin" [2, 3]]] p c) ∧
    (∀ nm c, (nm, c) ∈ create_zip_file [Entry.file "a.txt" [1],
        Entry.dir "sub" [Entry.file "b.bin" [2, 3]]] ↔
      ∃ p, FileAt [Entry.file "a.txt" [1],
        Entry.dir "sub" [Entry.file "b.bin" [2, 3]]] p c ∧ nm = zipEntryName p) ∧
    extractArchive (create_zip_file [Entry.file "a.txt" [1],
        Entry.dir "sub" [Entry.file "b.bin" [2, 3]]]) =
      walkFiles [] [Entry.file "a.txt" [1],
        Entry.dir "sub" [Entry.file "b.bin" [2, 3]]] ∧
    create_zip_file [Entry.file "a.txt" [1],
        Entry.dir "sub" [Entry.file "b.bin" [2, 3]]] =
      [("a.txt", [1]), ("sub/b.bin", [2, 3])] :=
  archive_entries_and_roundtrip
    [Entry.file "a.txt" [1], Entry.dir "sub" [Entry.file "b.bin" [2, 3]]]
    (by decide)

theorem render_substitutes_then_lowercases_witness :
    (∃ cs, pyFormat (releaseVars "acme" "core1" "1.2.3" "20261012" "pocket")
        ("core_{author}_{version}.bin" : String).toList = .ok cs ∧
      "core_acme_1.2.3.bin.zip" = String.mk (pyLower cs) ++ ".zip") ∧
    pyFormat (releaseVars "acme" "core1" "1.2.3" "20261012" "pocket")
        ("core_{author}_{version}.bin".toList) =
      .ok ("core_acme_1.2.3.bin".toList) ∧
    create_release_package (some "core_{author}_{version}.bin") "Acme" "core1"
        "1.2.3" "20261012" "pocket" = .ok (some "core_acme_1.2.3.bin.zip") ∧
    strftimeYYYYMMDD 2026 10 12 = "20261012" ∧
    (∀ y m d, (strftimeYYYYMMDD y m d).length = 8 ∧
      ∀ c ∈ (strftimeYYYYMMDD y m d).toList, c.isDigit = true) :=
  render_substitutes_then_lowercases "core_{author}_{version}.bin" "acme"
    "core1" "1.2.3" "20261012" "pocket" "core_acme_1.2.3.bin.zip" rfl

theorem clean_up_files_glob_witness :
    ((["a.png"], FileData.bytes [1]) ∉ clean_up_files
        [(["a.png"], FileData.bytes [1]), (["b.rbf"], FileData.bytes [2]),
         (["c.txt"], FileData.bytes [3])]) ∧
    ((["c.txt"], FileData.bytes [3]) ∈ clean_up_files
        [(["a.png"], FileData.bytes [1]), (["b.rbf"], FileData.bytes [2]),
         (["c.txt"], FileData.bytes [3])]) :=
  ⟨(clean_up_files_glob _).1 _ (by simp) rfl,
   (clean_up_files_glob _).2.1 _ (by simp) rfl⟩

end PocketPublish
